import Mathlib

/-!
Verification of the quartiq/xilinx-bitstream BIT/BIN parser and rewriter
(`xilinx-bitstream.py`) via a shallow embedding.

The Python program consists of:
* `Parser` — decodes the outer BIT container (`handle_bit`), the embedded
  configuration bitstream (`handle_bin`: sync search then the packet loop),
  type-1/type-2 packet headers (`handle_type1`/`handle_type2`) and dispatches
  events through overridable handler methods;
* `Rewriter` — a `Parser` whose handlers re-emit every observed event
  verbatim to an output byte stream;
* `Squeeze` — a `Rewriter` whose `handle_write` drops CRC writes and remaps
  IDCODE payload values.

Bytes are modelled as `List Nat` (each element a byte value `< 256` on real
inputs; theorems carry that bound where the re-packing direction needs it).
`stream.read(n)` is `List.take n` on the remaining bytes (Python returns up
to `n` bytes at end of file), and the file position `tell()` is threaded as
an explicit `pos : Nat`.  Fallible operations return `Except Err _`;
the `Err` constructors name the concrete Python exception each models.

The two loops of the parser (`handle_bit`'s key loop and `handle_bin`'s
packet loop) are written with an explicit fuel argument so that every
definition reduces by `rfl`/`decide`; the wrappers pass `length + 1` fuel,
which is sufficient because every loop iteration consumes at least one byte
of the remaining stream, so the `Err.fuelOut` marker is unreachable from the
wrappers.
-/

/-- Byte sequences: each element is a byte value (`< 256` on real inputs). -/
abbrev Bytes := List Nat

/-- Failure modes of the Python program.  Each constructor models the
concrete exception the interpreter raises at the corresponding site. -/
inductive Err where
  /-- `ValueError` from `handle_bit` when header tag A ≠ 9 or tag B ≠ 1. -/
  | headerMismatch
  /-- `struct.error`: `struct.unpack` (or `struct.pack` in `Squeeze`)
  applied to a byte string whose length does not match the format. -/
  | structError
  /-- `NameError` at `print("Unknown key: {}: {}".format(key, d))`:
  the variable `d` is undefined, so an unknown metadata key raises. -/
  | nameErrorUnknownKey
  /-- `AssertionError` at `assert data.endswith(b"\x00")` in `handle_meta`. -/
  | unterminatedMetadataString
  /-- The sync-search loop in `handle_bin` never terminates when the byte
  source is exhausted: `self.stream.read(1)` returns `b""` forever, `sync`
  stops growing, and `sync.endswith(b"\xaa\x99\x55\x66")` stays false.  This
  constructor marks that the Python loop diverges at this point; the code has
  no `SyncNotFound` (or any other) error path for sync-search exhaustion. -/
  | syncLoopDiverges
  /-- `NameError` at `assert end is None` in `handle_bin`: the variable
  `end` is undefined (the parameter is named `end_at`), so a short header
  read raises `NameError` instead of breaking out of the loop. -/
  | nameErrorEnd
  /-- `ValueError("no such packet type", hdr)` for header type ∉ {1, 2}. -/
  | unknownPacketType
  /-- `AssertionError` at `assert self.addr == self.addr & 0x1f`. -/
  | reservedAddressBitsSet
  /-- `AssertionError` at `assert len(payload) == length * 4`. -/
  | truncatedPayload
  /-- `AssertionError` at `assert op != 3` in `handle_op`. -/
  | reservedOpcode
  /-- `AssertionError` at `assert self.stream.tell() == end_at`. -/
  | misalignedEnd
  /-- `AttributeError`: `Squeeze.handle_write` reads `self.addr` before any
  type-1 header has ever assigned it. -/
  | attributeError
  /-- Fuel exhaustion marker of the embedding; unreachable from the wrappers
  (they pass `length + 1` fuel and each iteration consumes ≥ 1 byte). -/
  | fuelOut
  deriving Repr, DecidableEq

/-- Events observed by the handler ("Sink") methods, in the order the
`Parser` invokes them.  A `packet` event stands for the `handle_op` dispatch
to `handle_nop`/`handle_read`/`handle_write`: the opcode, packet type and
(for type 1) the address field are all recomputable from `hdr`. -/
inductive Event where
  /-- `handle_bitstart(a, unk, b)`. -/
  | bitstart (a : Nat) (unk : Bytes) (b : Nat)
  /-- `handle_keystart(key)`. -/
  | keystart (key : Nat)
  /-- `handle_meta(key, data)`; `declared` is the 2-byte length field read
  from the stream (`data` can be shorter if the stream ran out). -/
  | meta (key : Nat) (declared : Nat) (data : Bytes)
  /-- `handle_binstart(length)`. -/
  | binstart (len : Nat)
  /-- `handle_sync(sync)` — all bytes consumed by the sync search. -/
  | sync (bytes : Bytes)
  /-- `handle_op(op, hdr, payload)` dispatch (op ≠ 3 already checked). -/
  | packet (hdr : Nat) (payload : Bytes)
  /-- `handle_end()`. -/
  | endOfStream
  deriving Repr, DecidableEq

/-- Big-endian value of a byte string: `struct.unpack(">H"/">I", s)` on a
string of the matching exact length. -/
def beBytes (s : Bytes) : Nat :=
  s.foldl (fun acc b => acc * 256 + b) 0

/-- `struct.pack(">H", n)` for `n < 2^16`. -/
def pack2 (n : Nat) : Bytes :=
  [n / 256 % 256, n % 256]

/-- `struct.pack(">I", n)` for `n < 2^32`. -/
def pack4 (n : Nat) : Bytes :=
  [n / 16777216 % 256, n / 65536 % 256, n / 256 % 256, n % 256]

/-- The sync word `b"\xaa\x99\x55\x66"`. -/
def syncWord : Bytes := [0xaa, 0x99, 0x55, 0x66]

/-- The sync-search loop of `handle_bin`:
`sync = b""; while not sync.endswith(b"\xaa\x99\x55\x66"): sync += read(1)`.
Returns the accumulated sync bytes and the remaining stream.  When the
source is exhausted before the window matches, the Python loop never
terminates (`read(1)` returns `b""` forever): modelled by
`Err.syncLoopDiverges`. -/
def find_sync (s acc : Bytes) : Except Err (Bytes × Bytes) :=
  if syncWord.isSuffixOf acc then .ok (acc, s)
  else
    match s with
    | [] => .error .syncLoopDiverges
    | b :: rest => find_sync rest (acc ++ [b])

/-- The loop-top termination test of the packet loop:
`end_at is not None and self.stream.tell() >= end_at`. -/
def atEnd (pos : Nat) (endAt : Option Nat) : Bool :=
  match endAt with
  | none => false
  | some e => e ≤ pos

/-- The packet loop of `handle_bin` (fuel-indexed; the wrapper passes
`s.length + 1`, see `handle_bin`).  One iteration:
check `end_at`; read a 4-byte header (a short read evaluates
`assert end is None`, a `NameError` since `end` is undefined); dispatch on
`hdr >> 29` to `handle_type1`/`handle_type2` (address-bit check for type 1,
payload read of `length * 4` bytes, `handle_op`'s `assert op != 3`).
Returns the packet events, the final position and the remaining stream. -/
def handle_bin_loop : Nat → Nat → Option Nat → Bytes → Except Err (List Event × Nat × Bytes)
  | 0, _, _, _ => .error .fuelOut
  | fuel + 1, pos, endAt, s =>
    if atEnd pos endAt then
      if endAt = some pos then .ok ([], pos, s) else .error .misalignedEnd
    else if (s.take 4).length ≠ 4 then .error .nameErrorEnd
    else
      let hdr := beBytes (s.take 4)
      let typ := hdr >>> 29
      if typ = 1 then
        let addr := (hdr >>> 13) &&& 0x7ff
        if addr ≠ addr &&& 0x1f then .error .reservedAddressBitsSet
        else
          let len := hdr &&& 0x7ff
          let payload := (s.drop 4).take (len * 4)
          if payload.length ≠ len * 4 then .error .truncatedPayload
          else if (hdr >>> 27) &&& 3 = 3 then .error .reservedOpcode
          else
            match handle_bin_loop fuel (pos + 4 + len * 4) endAt ((s.drop 4).drop (len * 4)) with
            | .error e => .error e
            | .ok (evs, p, r) => .ok (.packet hdr payload :: evs, p, r)
      else if typ = 2 then
        let len := hdr &&& 0x7ffffff
        let payload := (s.drop 4).take (len * 4)
        if payload.length ≠ len * 4 then .error .truncatedPayload
        else if (hdr >>> 27) &&& 3 = 3 then .error .reservedOpcode
        else
          match handle_bin_loop fuel (pos + 4 + len * 4) endAt ((s.drop 4).drop (len * 4)) with
          | .error e => .error e
          | .ok (evs, p, r) => .ok (.packet hdr payload :: evs, p, r)
      else .error .unknownPacketType

/-- `Parser.handle_bin(end_at)`: sync search, `handle_sync`, the packet
loop, then `handle_end`.  `pos` is `self.stream.tell()` on entry and `s`
the remaining bytes of the source. -/
def handle_bin (pos : Nat) (endAt : Option Nat) (s : Bytes) :
    Except Err (List Event × Nat × Bytes) :=
  match find_sync s [] with
  | .error e => .error e
  | .ok (sy, rest) =>
    match handle_bin_loop (rest.length + 1) (pos + sy.length) endAt rest with
    | .error e => .error e
    | .ok (evs, p, r) => .ok (.sync sy :: (evs ++ [.endOfStream]), p, r)

/-- The record loop of `handle_bit` (fuel-indexed; the wrapper passes
`s.length + 1`).  Reads a one-byte key until the source is exhausted;
`'e'` = 101 reads a 4-byte big-endian length and runs `handle_bin` with
`end_at = tell() + length`; `'a'..'d'` = 97..100 read a 2-byte length and
that many bytes of metadata (`handle_meta` asserts the trailing NUL; its
`data[:-1].decode()` — UTF-8 validity of the text — is not modelled);
any other key raises `NameError` (the diagnostic print references the
undefined variable `d`). -/
def handle_bit_loop : Nat → Nat → Bytes → Except Err (List Event)
  | 0, _, _ => .error .fuelOut
  | _ + 1, _, [] => .ok []
  | fuel + 1, pos, key :: rest =>
      if key = 101 then
        if (rest.take 4).length ≠ 4 then .error .structError
        else
          let len := beBytes (rest.take 4)
          match handle_bin (pos + 5) (some (pos + 5 + len)) (rest.drop 4) with
          | .error e => .error e
          | .ok (evs, p, r) =>
            match handle_bit_loop fuel p r with
            | .error e => .error e
            | .ok evs2 => .ok (.keystart key :: .binstart len :: (evs ++ evs2))
      else if key = 97 ∨ key = 98 ∨ key = 99 ∨ key = 100 then
        if (rest.take 2).length ≠ 2 then .error .structError
        else
          let declared := beBytes (rest.take 2)
          let data := (rest.drop 2).take declared
          if data.getLast? = some 0 then
            match handle_bit_loop fuel (pos + 3 + data.length) ((rest.drop 2).drop declared) with
            | .error e => .error e
            | .ok evs2 => .ok (.keystart key :: .meta key declared data :: evs2)
          else .error .unterminatedMetadataString
      else .error .nameErrorUnknownKey

/-- `Parser.handle_bit()` on the full input `D`: the two header tags
(`9` and `1`), the `a`-byte unknown blob, then the record loop. -/
def handle_bit (D : Bytes) : Except Err (List Event) :=
  if (D.take 2).length ≠ 2 then .error .structError
  else
    let a := beBytes (D.take 2)
    if a ≠ 9 then .error .headerMismatch
    else
      let s1 := D.drop 2
      let unk := s1.take a
      let s2 := s1.drop a
      if (s2.take 2).length ≠ 2 then .error .structError
      else
        let b := beBytes (s2.take 2)
        if b ≠ 1 then .error .headerMismatch
        else
          match handle_bit_loop ((s2.drop 2).length + 1) (2 + unk.length + 2) (s2.drop 2) with
          | .error e => .error e
          | .ok evs => .ok (.bitstart a unk b :: evs)

/-- The bytes `Rewriter` writes for one observed event: `handle_bitstart`
packs the tags back, `handle_keystart` writes the key byte, `handle_meta`
writes `pack(">H", len(data))` and `data`, `handle_binstart` packs the
length, `handle_sync` writes the sync bytes, and every packet event goes
through `emit_packet` (header repacked, payload verbatim); `handle_end`
writes nothing. -/
def rewriteEvent : Event → Bytes
  | .bitstart a unk b => pack2 a ++ unk ++ pack2 b
  | .keystart key => [key]
  | .meta _ _ data => pack2 data.length ++ data
  | .binstart len => pack4 len
  | .sync bytes => bytes
  | .packet hdr payload => pack4 hdr ++ payload
  | .endOfStream => []

/-- Total output of `Rewriter` over an event trace. -/
def rewriteOut : List Event → Bytes
  | [] => []
  | ev :: evs => rewriteEvent ev ++ rewriteOut evs

/-- A metadata event whose stored data has exactly the declared length
(i.e. the stream did not run dry inside `self.stream.read(length)`). -/
def metaOk : Event → Bool
  | .meta _ declared data => declared == data.length
  | _ => true

/-- Every metadata record of the trace was read to its full declared
length.  This holds for every well-formed container (the declared length
counts bytes that are present); it can only fail when the source is
truncated inside the very last metadata record. -/
def metaExact (evs : List Event) : Bool :=
  evs.all metaOk

/-- The register name table (`registers` in the source): fixed 32-entry
list, index = 5-bit address. -/
def registers : List String :=
  ["CRC", "FAR", "FDRI", "FDRO", "CMD", "CTL0", "MASK", "STAT",
   "LOUT", "COR0", "MFWR", "CBC", "IDCODE", "AXSS", "COR1", "_",
   "WBSTAR", "TIMER", "_", "_", "_", "_", "BOOTSTS", "_",
   "CTL1", "_", "_", "_", "_", "_", "_", "BSPI"]

/-- `Squeeze.idmap`: `{0x0362C093: 0x0362E093, 0x0362D093: 0x0362E093}`
read through `.get(idcode, idcode)`. -/
def idmap (idcode : Nat) : Nat :=
  if idcode = 0x0362C093 then 0x0362E093
  else if idcode = 0x0362D093 then 0x0362E093
  else idcode

/-- The state of the `self.addr` attribute shared between `Parser`
(assigned on every type-1 header) and `Squeeze` (set to `None` after a CRC
write): never assigned yet (`unset`, reading it raises `AttributeError`),
assigned `None` (`cleared`), or holding an address. -/
inductive AddrSt where
  | unset
  | cleared
  | addr (a : Nat)
  deriving Repr, DecidableEq

/-- The `self.addr = (hdr >> 13) & 0x7ff` assignment of `handle_type1`:
a type-1 header overwrites the stored address, any other header leaves it. -/
def resolveAddr (st : AddrSt) (hdr : Nat) : AddrSt :=
  if hdr >>> 29 = 1 then .addr ((hdr >>> 13) &&& 0x7ff) else st

/-- `Rewriter.emit_packet`: the original header repacked big-endian,
followed by the payload. -/
def emit_packet (hdr : Nat) (payload : Bytes) : Bytes :=
  pack4 hdr ++ payload

/-- `Squeeze.handle_write(hdr, payload)` given the current `self.addr`
state.  Reading `self.addr` when it was never assigned raises
`AttributeError`.  `self.addr == registers.index("CRC")`: drop the packet,
`struct.unpack(">I", payload)` the 4-byte CRC (a `struct.error` if the
payload is not exactly 4 bytes; the unpacked value is only printed), then
`self.addr = None`.  `self.addr == registers.index("IDCODE")`: unpack the
4-byte payload, remap it through `idmap` and emit.  Any other address
(including the cleared `None`, which compares unequal to both indices):
emit verbatim. -/
def squeeze_handle_write (st : AddrSt) (hdr : Nat) (payload : Bytes) :
    Except Err (Bytes × AddrSt) :=
  match st with
  | .unset => .error .attributeError
  | .cleared => .ok (emit_packet hdr payload, st)
  | .addr a =>
    if a = registers.indexOf "CRC" then
      if payload.length = 4 then .ok ([], .cleared) else .error .structError
    else if a = registers.indexOf "IDCODE" then
      if payload.length = 4 then
        .ok (emit_packet hdr (pack4 (idmap (beBytes payload))), st)
      else .error .structError
    else .ok (emit_packet hdr payload, st)

/-- One event processed by the `Squeeze` pass: `handle_type1` first updates
`self.addr` (on type-1 headers), then `handle_op` dispatches; writes
(`op = 2`) go through `Squeeze.handle_write`, nops and reads are emitted
verbatim by the inherited `Rewriter` handlers, and every non-packet event
behaves exactly as in `Rewriter`.  Returns the emitted bytes and the
`self.addr` state after the event. -/
def squeezeStep (st : AddrSt) (ev : Event) : Except Err (Bytes × AddrSt) :=
  match ev with
  | .packet hdr payload =>
    let st1 := resolveAddr st hdr
    if (hdr >>> 27) &&& 3 = 2 then squeeze_handle_write st1 hdr payload
    else .ok (rewriteEvent ev, st1)
  | _ => .ok (rewriteEvent ev, st)

/-- The `Squeeze` pass over a whole event trace, threading `self.addr`. -/
def squeezeRun (st : AddrSt) : List Event → Except Err Bytes
  | [] => .ok []
  | ev :: evs =>
    match squeezeStep st ev with
    | .error e => .error e
    | .ok (out, st1) =>
      match squeezeRun st1 evs with
      | .error e => .error e
      | .ok rest => .ok (out ++ rest)

/-- `Squeeze(read, write).handle_bit()` on input `D` (run after the plain
`Parser` pass, as `__main__` does): decode, then replay the trace through
`Squeeze` starting from an unassigned `self.addr`. -/
def squeezeBit (D : Bytes) : Except Err Bytes :=
  match handle_bit D with
  | .error e => .error e
  | .ok evs => squeezeRun .unset evs

/-- A concrete well-formed BIT container: tags 9 and 1, a 9-byte blob, one
`'a'` (Design) metadata record `"A\0"`, and an 8-byte bitstream section
holding the sync word and one type-1 NOP packet header. -/
def exD : Bytes :=
  [0, 9] ++ [1, 2, 3, 4, 5, 6, 7, 8, 9] ++ [0, 1] ++
    [97, 0, 2, 65, 0] ++ [101, 0, 0, 0, 8] ++
    [0xaa, 0x99, 0x55, 0x66] ++ [0x20, 0, 0, 0]

/-- The event trace the parser produces on `exD`. -/
def exE : List Event :=
  [.bitstart 9 [1, 2, 3, 4, 5, 6, 7, 8, 9] 1,
   .keystart 97, .meta 97 2 [65, 0],
   .keystart 101, .binstart 8,
   .sync [0xaa, 0x99, 0x55, 0x66],
   .packet 0x20000000 [],
   .endOfStream]

/-- Re-packing inverts big-endian decoding of a 2-byte string. -/
theorem pack2_beBytes (s : Bytes) (h2 : s.length = 2) (hb : ∀ b ∈ s, b < 256) :
    pack2 (beBytes s) = s := by
  match s, h2 with
  | [a, b], _ =>
    have ha : a < 256 := hb a (by simp)
    have hbb : b < 256 := hb b (by simp)
    simp only [beBytes, List.foldl_cons, List.foldl_nil, pack2, List.cons.injEq, and_true]
    constructor <;> omega

/-- Re-packing inverts big-endian decoding of a 4-byte string. -/
theorem pack4_beBytes (s : Bytes) (h4 : s.length = 4) (hb : ∀ b ∈ s, b < 256) :
    pack4 (beBytes s) = s := by
  match s, h4 with
  | [a, b, c, d], _ =>
    have ha : a < 256 := hb a (by simp)
    have hbb : b < 256 := hb b (by simp)
    have hc : c < 256 := hb c (by simp)
    have hd : d < 256 := hb d (by simp)
    simp only [beBytes, List.foldl_cons, List.foldl_nil, pack4, List.cons.injEq, and_true]
    refine ⟨by omega, by omega, by omega, by omega⟩

/-- Big-endian decoding inverts packing of a 32-bit value. -/
theorem beBytes_pack4 (n : Nat) (h : n < 4294967296) : beBytes (pack4 n) = n := by
  simp only [beBytes, pack4, List.foldl_cons, List.foldl_nil]
  omega

/-- The sync search returns exactly the bytes it consumed: accumulated sync
plus remainder reassemble the input. -/
theorem find_sync_append (s : Bytes) : ∀ acc sy r, find_sync s acc = .ok (sy, r) →
    sy ++ r = acc ++ s := by
  induction s with
  | nil =>
    intro acc sy r h
    unfold find_sync at h
    split at h
    · simp only [Except.ok.injEq, Prod.mk.injEq] at h
      obtain ⟨h1, h2⟩ := h
      subst h1; subst h2; simp
    · simp at h
  | cons b rest ih =>
    intro acc sy r h
    unfold find_sync at h
    split at h
    · simp only [Except.ok.injEq, Prod.mk.injEq] at h
      obtain ⟨h1, h2⟩ := h
      subst h1; subst h2; simp
    · have := ih (acc ++ [b]) sy r h
      simpa using this

/-- `Rewriter` output distributes over trace concatenation. -/
theorem rewriteOut_append (l1 l2 : List Event) :
    rewriteOut (l1 ++ l2) = rewriteOut l1 ++ rewriteOut l2 := by
  induction l1 with
  | nil => simp [rewriteOut]
  | cons ev evs ih => simp [rewriteOut, ih]

/-- One decoded packet re-emits as exactly its consumed bytes: header bytes
re-packed plus payload, in front of the rest of the re-emitted stream. -/
theorem packet_cons_append (s r : Bytes) (m : Nat) (evs : List Event)
    (hb : ∀ b ∈ s, b < 256) (hlen : (s.take 4).length = 4)
    (hrec : rewriteOut evs ++ r = (s.drop 4).drop m) :
    rewriteOut (.packet (beBytes (s.take 4)) ((s.drop 4).take m) :: evs) ++ r = s := by
  simp only [rewriteOut, rewriteEvent, List.append_assoc]
  rw [pack4_beBytes _ hlen (fun b hm => hb b (List.mem_of_mem_take hm)), hrec,
    List.take_append_drop, List.take_append_drop]

/-- Round trip of the packet loop: on success, the `Rewriter` emission of
the packet events followed by the unconsumed remainder reassembles the
input byte-for-byte. -/
theorem handle_bin_loop_append (fuel : Nat) :
    ∀ pos endAt s evs p r, (∀ b ∈ s, b < 256) →
      handle_bin_loop fuel pos endAt s = .ok (evs, p, r) →
      rewriteOut evs ++ r = s := by
  induction fuel with
  | zero =>
    intro pos endAt s evs p r _ h
    simp [handle_bin_loop] at h
  | succ fuel ih =>
    intro pos endAt s evs p r hb h
    simp only [handle_bin_loop] at h
    split at h
    · split at h
      · simp only [Except.ok.injEq, Prod.mk.injEq] at h
        obtain ⟨h1, h2, h3⟩ := h
        subst h1; subst h3
        simp [rewriteOut]
      · simp at h
    · split at h
      · simp at h
      · rename_i hlen4
        split at h
        · split at h
          · simp at h
          · split at h
            · simp at h
            · split at h
              · simp at h
              · split at h
                · simp at h
                · rename_i heq
                  simp only [Except.ok.injEq, Prod.mk.injEq] at h
                  obtain ⟨h1, h2, h3⟩ := h
                  subst h1; subst h2; subst h3
                  refine packet_cons_append s _ _ _ hb (by omega) ?_
                  exact ih _ endAt _ _ _ _
                    (fun b hm => hb b (List.mem_of_mem_drop (List.mem_of_mem_drop hm))) heq
        · split at h
          · split at h
            · simp at h
            · split at h
              · simp at h
              · split at h
                · simp at h
                · rename_i heq
                  simp only [Except.ok.injEq, Prod.mk.injEq] at h
                  obtain ⟨h1, h2, h3⟩ := h
                  subst h1; subst h2; subst h3
                  refine packet_cons_append s _ _ _ hb (by omega) ?_
                  exact ih _ endAt _ _ _ _
                    (fun b hm => hb b (List.mem_of_mem_drop (List.mem_of_mem_drop hm))) heq
          · simp at h

/-- Round trip of `handle_bin`: sync bytes, packet emissions and the
remainder reassemble the input. -/
theorem handle_bin_append (pos : Nat) (endAt : Option Nat) (s : Bytes) (evs : List Event)
    (p : Nat) (r : Bytes) (hb : ∀ b ∈ s, b < 256)
    (h : handle_bin pos endAt s = .ok (evs, p, r)) :
    rewriteOut evs ++ r = s := by
  unfold handle_bin at h
  split at h
  · simp at h
  · rename_i sy rest hsync
    split at h
    · simp at h
    · rename_i evs1 p1 r1 heq
      simp only [Except.ok.injEq, Prod.mk.injEq] at h
      obtain ⟨h1, h2, h3⟩ := h
      subst h1; subst h2; subst h3
      have hsr : sy ++ rest = s := by simpa using find_sync_append s [] sy rest hsync
      have hbr : ∀ b ∈ rest, b < 256 := fun b hm =>
        hb b (by rw [← hsr]; exact List.mem_append_right _ hm)
      have hloop := handle_bin_loop_append (rest.length + 1) _ endAt rest evs1 _ _ hbr heq
      have hout : rewriteOut (Event.sync sy :: (evs1 ++ [Event.endOfStream])) =
          sy ++ rewriteOut evs1 := by
        simp [rewriteOut, rewriteEvent, rewriteOut_append]
      rw [hout, List.append_assoc, hloop, hsr]

/-- Round trip of the record loop of `handle_bit`: on success, and when
every metadata record was read to its declared length, the `Rewriter`
emission of the record events reassembles the consumed bytes exactly. -/
theorem handle_bit_loop_append (fuel : Nat) :
    ∀ pos s evs, (∀ b ∈ s, b < 256) → metaExact evs = true →
      handle_bit_loop fuel pos s = .ok evs → rewriteOut evs = s := by
  induction fuel with
  | zero => intro pos s evs _ _ h; simp [handle_bit_loop] at h
  | succ fuel ih =>
    intro pos s evs hb hm h
    cases s with
    | nil =>
      simp only [handle_bit_loop, Except.ok.injEq] at h
      subst h
      rfl
    | cons key rest =>
      simp only [handle_bit_loop] at h
      split at h
      · rename_i hkey
        split at h
        · simp at h
        · rename_i hlen4
          split at h
          · simp at h
          · rename_i evs1 p1 r1 heqbin
            split at h
            · simp at h
            · rename_i evs2 heqloop
              simp only [Except.ok.injEq] at h
              subst h
              have hbrest : ∀ b ∈ rest, b < 256 := fun b hm' => hb b (by simp [hm'])
              have hbin := handle_bin_append _ _ _ _ _ _
                (fun b hm' => hbrest b (List.mem_of_mem_drop hm')) heqbin
              have hb1 : ∀ b ∈ r1, b < 256 := fun b hm' => by
                have : b ∈ rest.drop 4 := by rw [← hbin]; exact List.mem_append_right _ hm'
                exact hbrest b (List.mem_of_mem_drop this)
              have hm2 : metaExact evs2 = true := by
                simp only [metaExact, List.all_cons, List.all_append, Bool.and_eq_true] at hm
                exact hm.2.2.2
              have hrec := ih p1 r1 evs2 hb1 hm2 heqloop
              simp only [rewriteOut, rewriteEvent, rewriteOut_append, List.append_assoc,
                hkey]
              rw [pack4_beBytes _ (by omega)
                (fun b hm' => hbrest b (List.mem_of_mem_take hm')), hrec,
                ← List.append_assoc, hbin, List.append_assoc, List.take_append_drop]
              rfl
      · split at h
        · rename_i hkey
          split at h
          · simp at h
          · rename_i hlen2
            split at h
            · rename_i hterm
              split at h
              · simp at h
              · rename_i evs2 heqloop
                simp only [Except.ok.injEq] at h
                subst h
                have hbrest : ∀ b ∈ rest, b < 256 := fun b hm' => hb b (by simp [hm'])
                have hdecl : beBytes (rest.take 2) =
                    ((rest.drop 2).take (beBytes (rest.take 2))).length := by
                  simp only [metaExact, List.all_cons, Bool.and_eq_true, metaOk,
                    beq_iff_eq] at hm
                  exact hm.2.1
                have hb2 : ∀ b ∈ (rest.drop 2).drop (beBytes (rest.take 2)), b < 256 :=
                  fun b hm' => hbrest b (List.mem_of_mem_drop (List.mem_of_mem_drop hm'))
                have hm2 : metaExact evs2 = true := by
                  simp only [metaExact, List.all_cons, Bool.and_eq_true] at hm
                  exact hm.2.2
                have hrec := ih _ _ evs2 hb2 hm2 heqloop
                simp only [rewriteOut, rewriteEvent, List.append_assoc]
                rw [← hdecl, pack2_beBytes _ (by omega)
                  (fun b hm' => hbrest b (List.mem_of_mem_take hm')), hrec,
                  List.take_append_drop, List.take_append_drop]
                rfl
            · simp at h
        · simp at h

/-- Claim C1: for every well-formed container byte sequence `D` — a byte
sequence (elements `< 256`) that the `Parser` decodes successfully and
whose metadata records are present to their full declared length —
re-emitting every observed event through `Rewriter` produces an output
byte sequence exactly equal to `D`. -/
theorem rewriter_roundtrip (D : Bytes) (evs : List Event)
    (hb : ∀ b ∈ D, b < 256) (h : handle_bit D = .ok evs)
    (hm : metaExact evs = true) :
    rewriteOut evs = D := by
  simp only [handle_bit] at h
  split at h
  · simp at h
  · rename_i hD2
    split at h
    · simp at h
    · split at h
      · simp at h
      · rename_i hs2
        split at h
        · simp at h
        · split at h
          · simp at h
          · rename_i evs1 heq
            simp only [Except.ok.injEq] at h
            subst h
            have hbd : ∀ b ∈ D.drop 2, b < 256 :=
              fun b hm' => hb b (List.mem_of_mem_drop hm')
            have hbs2 : ∀ b ∈ (D.drop 2).drop (beBytes (D.take 2)), b < 256 :=
              fun b hm' => hbd b (List.mem_of_mem_drop hm')
            have hm1 : metaExact evs1 = true := by
              simp only [metaExact, List.all_cons, Bool.and_eq_true] at hm
              exact hm.2
            have hkl := handle_bit_loop_append _ _ _ evs1
              (fun b hm' => hbs2 b (List.mem_of_mem_drop hm')) hm1 heq
            simp only [rewriteOut, rewriteEvent, List.append_assoc, List.append_nil]
            rw [pack2_beBytes _ (by omega) (fun b hm' => hb b (List.mem_of_mem_take hm')),
              pack2_beBytes _ (by omega)
                (fun b hm' => hbs2 b (List.mem_of_mem_take hm')),
              hkl, List.take_append_drop, List.take_append_drop, List.take_append_drop]

/-- Witness for `rewriter_roundtrip`: the concrete container `exD` parses
to the trace `exE`, whose metadata records are exact, and the `Rewriter`
output reassembles `exD` byte-for-byte. -/
theorem rewriter_roundtrip_witness :
    handle_bit exD = .ok exE ∧ metaExact exE = true ∧ rewriteOut exE = exD :=
  ⟨rfl, rfl, rewriter_roundtrip exD exE (by decide) rfl rfl⟩

/-- Claim C2: a write packet (`op = 2`) whose resolved address is the CRC
register (address 0) is not emitted by `Squeeze` — the emitted output for
the event is empty — its 4-byte payload is only unpacked for the diagnostic
print, and the stored current address is cleared (`self.addr = None`)
afterward. -/
theorem squeeze_drops_crc_writes (st : AddrSt) (hdr : Nat) (payload : Bytes)
    (hop : (hdr >>> 27) &&& 3 = 2) (hres : resolveAddr st hdr = .addr 0)
    (hlen : payload.length = 4) :
    squeezeStep st (.packet hdr payload) = .ok ([], .cleared) := by
  have hcrc : registers.indexOf "CRC" = 0 := rfl
  simp only [squeezeStep, hop, if_pos, hres, squeeze_handle_write, hcrc, hlen,
    if_true]

/-- Witness for `squeeze_drops_crc_writes`: a type-1 single-word write to
register 0 is dropped and clears the stored address. -/
theorem squeeze_drops_crc_writes_witness :
    squeezeStep AddrSt.unset (.packet 0x30000001 [0, 0, 0, 0]) =
      .ok ([], .cleared) :=
  squeeze_drops_crc_writes AddrSt.unset 0x30000001 [0, 0, 0, 0]
    (by decide) (by decide) (by decide)

/-- Claim C3: a write packet whose resolved address is the IDCODE register
(address 12) is emitted by `Squeeze` with its 4-byte payload remapped:
payload values `0x0362C093` and `0x0362D093` become `0x0362E093`, any other
payload value is emitted unchanged; the stored address is not modified. -/
theorem squeeze_idcode_remap (st : AddrSt) (hdr : Nat) (payload : Bytes)
    (hop : (hdr >>> 27) &&& 3 = 2) (hres : resolveAddr st hdr = .addr 12)
    (hlen : payload.length = 4) (hb : ∀ b ∈ payload, b < 256) :
    squeezeStep st (.packet hdr payload) =
      .ok (pack4 hdr ++
        (if beBytes payload = 0x0362C093 ∨ beBytes payload = 0x0362D093
          then pack4 0x0362E093 else payload), .addr 12) := by
  have hcrc0 : registers.indexOf "CRC" = 0 := rfl
  have hid : registers.indexOf "IDCODE" = 12 := rfl
  have hstep : squeezeStep st (.packet hdr payload) =
      .ok (pack4 hdr ++ pack4 (idmap (beBytes payload)), AddrSt.addr 12) := by
    simp only [squeezeStep, hop, if_pos, hres, squeeze_handle_write, hcrc0, hid,
      hlen, emit_packet]
    rw [if_neg (by omega)]
  rw [hstep]
  by_cases hc : beBytes payload = 0x0362C093
  · simp [idmap, hc]
  · by_cases hd : beBytes payload = 0x0362D093
    · simp [idmap, hc, hd]
    · have h1 : idmap (beBytes payload) = beBytes payload := by
        unfold idmap
        rw [if_neg hc, if_neg hd]
      rw [h1, pack4_beBytes payload hlen hb, if_neg (by tauto)]

/-- Witness for `squeeze_idcode_remap`: a type-2 single-word write while
the stored address is 12 has payload `0x0362C093` remapped. -/
theorem squeeze_idcode_remap_witness :
    squeezeStep (AddrSt.addr 12) (.packet 0x50000001 [0x03, 0x62, 0xC0, 0x93]) =
      .ok (pack4 0x50000001 ++
        (if beBytes [0x03, 0x62, 0xC0, 0x93] = 0x0362C093 ∨
            beBytes [0x03, 0x62, 0xC0, 0x93] = 0x0362D093
          then pack4 0x0362E093 else [0x03, 0x62, 0xC0, 0x93]), AddrSt.addr 12) :=
  squeeze_idcode_remap (AddrSt.addr 12) 0x50000001 [0x03, 0x62, 0xC0, 0x93]
    (by decide) (by decide) (by decide) (by decide)

/-- Claim C10: `Squeeze.handle_write` unconditionally unpacks the payload
of a CRC- or IDCODE-addressed write as one big-endian 32-bit word
(`struct.unpack(">I", payload)`), so a write packet to either register
whose word count is not exactly 1 (payload length ≠ 4) fails with a
`struct.error` instead of being dropped, remapped or passed through. -/
theorem squeeze_requires_single_word (st : AddrSt) (hdr : Nat) (payload : Bytes)
    (hop : (hdr >>> 27) &&& 3 = 2)
    (hres : resolveAddr st hdr = .addr 0 ∨ resolveAddr st hdr = .addr 12)
    (hlen : payload.length ≠ 4) :
    squeezeStep st (.packet hdr payload) = .error .structError := by
  cases hres with
  | inl h0 =>
    have hcrc : registers.indexOf "CRC" = 0 := rfl
    simp [squeezeStep, hop, h0, squeeze_handle_write, hcrc, hlen]
  | inr h12 =>
    have hcrc : registers.indexOf "CRC" = 0 := rfl
    have hid : registers.indexOf "IDCODE" = 12 := rfl
    simp [squeezeStep, hop, h12, squeeze_handle_write, hcrc, hid, hlen]

/-- Witness for `squeeze_requires_single_word`: a two-word write to the
CRC register fails with a `struct.error`. -/
theorem squeeze_requires_single_word_witness :
    squeezeStep AddrSt.unset (.packet 0x30000002 [0, 0, 0, 0, 0, 0, 0, 0]) =
      .error .structError :=
  squeeze_requires_single_word AddrSt.unset 0x30000002 [0, 0, 0, 0, 0, 0, 0, 0]
    (by decide) (.inl (by decide)) (by decide)

/-- Claim C7: with an `end_at` offset set, the packet loop never returns
successfully at any position other than `end_at` exactly (no silent
truncation or overrun), and whenever the position has reached or passed
`end_at` without equality it fails with the misaligned-end assertion. -/
theorem packet_loop_exact_end :
    (∀ fuel pos e s evs p r,
        handle_bin_loop fuel pos (some e) s = .ok (evs, p, r) → p = e) ∧
    (∀ fuel pos e s, e ≤ pos → pos ≠ e →
        handle_bin_loop (fuel + 1) pos (some e) s = .error .misalignedEnd) := by
  constructor
  · intro fuel
    induction fuel with
    | zero =>
      intro pos e s evs p r h
      simp [handle_bin_loop] at h
    | succ fuel ih =>
      intro pos e s evs p r h
      simp only [handle_bin_loop] at h
      split at h
      · split at h
        · rename_i heq
          simp only [Option.some.injEq] at heq
          simp only [Except.ok.injEq, Prod.mk.injEq] at h
          omega
        · simp at h
      · split at h
        · simp at h
        · split at h
          · split at h
            · simp at h
            · split at h
              · simp at h
              · split at h
                · simp at h
                · split at h
                  · simp at h
                  · rename_i heq
                    simp only [Except.ok.injEq, Prod.mk.injEq] at h
                    obtain ⟨h1, h2, h3⟩ := h
                    subst h2
                    exact ih _ e _ _ _ _ heq
          · split at h
            · split at h
              · simp at h
              · split at h
                · simp at h
                · split at h
                  · simp at h
                  · rename_i heq
                    simp only [Except.ok.injEq, Prod.mk.injEq] at h
                    obtain ⟨h1, h2, h3⟩ := h
                    subst h2
                    exact ih _ e _ _ _ _ heq
            · simp at h
  · intro fuel pos e s hle hne
    simp only [handle_bin_loop, atEnd]
    rw [if_pos (by simpa using hle), if_neg (by simpa using fun h => hne h.symm)]

/-- Witness for `packet_loop_exact_end`: position 9 past `end_at = 8`
fails with the misaligned-end assertion. -/
theorem packet_loop_exact_end_witness :
    handle_bin_loop (0 + 1) 9 (some 8) [] = .error .misalignedEnd :=
  packet_loop_exact_end.2 0 9 8 [] (by decide) (by decide)

/-- Claim C8: a type-1 packet header whose 11-bit address field
(bits 23..13) has any bit set above the low 5 bits fails the
`assert self.addr == self.addr & 0x1f` check in `handle_type1`, regardless
of what follows the header in the stream. -/
theorem type1_reserved_addr_bits (hdr : Nat) (tail : Bytes)
    (h32 : hdr < 4294967296) (htyp : hdr >>> 29 = 1)
    (haddr : (hdr >>> 13) &&& 0x7ff ≠ ((hdr >>> 13) &&& 0x7ff) &&& 0x1f) :
    handle_bin_loop ((pack4 hdr ++ tail).length + 1) 0 none (pack4 hdr ++ tail) =
      .error .reservedAddressBitsSet := by
  have hp4 : (pack4 hdr).length = 4 := rfl
  have htake : (pack4 hdr ++ tail).take 4 = pack4 hdr := by
    rw [← hp4]
    exact List.take_left (pack4 hdr) tail
  simp only [handle_bin_loop, atEnd, htake, hp4, beBytes_pack4 hdr h32, htyp]
  rw [if_neg (by simp), if_neg (by omega), if_pos trivial, if_pos haddr]

/-- Witness for `type1_reserved_addr_bits`: the type-1 header `0x20200000`
(address field `0b00100000000`) fails with the reserved-address assertion. -/
theorem type1_reserved_addr_bits_witness :
    handle_bin_loop ((pack4 0x20200000 ++ []).length + 1) 0 none
      (pack4 0x20200000 ++ []) = .error .reservedAddressBitsSet :=
  type1_reserved_addr_bits 0x20200000 [] (by decide) (by decide) (by decide)

/-- Claim C4 (code bug): when the byte source is exhausted before the
rolling window ever equals the sync word, `handle_bin` does not report any
`SyncNotFound` error — the sync-search loop diverges (`read(1)` returns
`b""` forever and the loop condition never changes).  Evaluated here on a
concrete sync-less exhausted source; `Err.syncLoopDiverges` marks the
divergence point, and no `SyncNotFound` path exists in the code. -/
theorem sync_search_diverges_at_eof :
    handle_bin 0 none [0x00, 0x01, 0x02] = .error .syncLoopDiverges := rfl

/-- Claim C5 (code bug): a metadata key outside `{a, b, c, d, e}` does not
produce a non-fatal diagnostic — the diagnostic print references the
undefined variable `d`, so the parse aborts with a `NameError`.  Evaluated
on a concrete container whose first record key is `'z'` = 122. -/
theorem unknown_key_raises_name_error :
    handle_bit [0, 9, 1, 2, 3, 4, 5, 6, 7, 8, 9, 0, 1, 122] =
      .error .nameErrorUnknownKey := rfl

/-- Claim C6 (code bug): with no `end_at` given and fewer than 4 bytes
remaining at a packet-header read, the decode does not stop cleanly — the
guard `assert end is None` references the undefined variable `end` (the
parameter is `end_at`), so it raises a `NameError`.  Evaluated on a stream
that ends immediately after the sync word. -/
theorem short_header_read_raises_name_error :
    handle_bin 0 none [0xaa, 0x99, 0x55, 0x66] = .error .nameErrorEnd := rfl

/-- Claim C9 counterexample: a packet stream consisting of the sync word
followed by a single type-2 packet (header `0x40000000`: type 2, opcode
NOP, word count 0) with no preceding type-1 header decodes successfully —
the parse emits the packet event and terminates normally, so a type-2
packet with no prior type-1 is not treated as a format error. -/
theorem type2_without_type1_decodes_ok :
    handle_bin 0 (some 8) [0xaa, 0x99, 0x55, 0x66, 0x40, 0x00, 0x00, 0x00] =
      .ok ([.sync [0xaa, 0x99, 0x55, 0x66], .packet 0x40000000 [],
        .endOfStream], 8, []) := rfl

/-- Claim C9 (amended): the `Parser` decodes a type-2 packet with no
preceding type-1 header without any error (the stored address is simply
never consulted); only the `Squeeze` pass fails on such a packet, and only
when it is a write — reading the never-assigned `self.addr` raises an
`AttributeError` — while a type-2 NOP packet passes through `Squeeze`
verbatim. -/
theorem type2_without_type1_amended (hdr : Nat) (payload : Bytes)
    (htyp : hdr >>> 29 = 2) :
    ((hdr >>> 27) &&& 3 = 2 →
      squeezeStep .unset (.packet hdr payload) = .error .attributeError) ∧
    ((hdr >>> 27) &&& 3 = 0 →
      squeezeStep .unset (.packet hdr payload) =
        .ok (emit_packet hdr payload, .unset)) := by
  have hres : resolveAddr AddrSt.unset hdr = .unset := by
    unfold resolveAddr
    rw [htyp]
    simp
  constructor
  · intro hop
    simp [squeezeStep, hop, hres, squeeze_handle_write]
  · intro hop
    simp [squeezeStep, hop, hres, rewriteEvent, emit_packet]

/-- Witness for `type2_without_type1_amended`: a type-2 write header with
the address never assigned crashes the `Squeeze` pass. -/
theorem type2_without_type1_amended_witness :
    squeezeStep AddrSt.unset (.packet 0x50000000 []) = .error .attributeError :=
  (type2_without_type1_amended 0x50000000 [] (by decide)).1 (by decide)

/-- The sync search never hands back more bytes than it was given. -/
theorem find_sync_rest_le (s : Bytes) : ∀ acc sy r, find_sync s acc = .ok (sy, r) →
    r.length ≤ s.length := by
  induction s with
  | nil =>
    intro acc sy r h
    unfold find_sync at h
    split at h
    · simp only [Except.ok.injEq, Prod.mk.injEq] at h
      obtain ⟨h1, h2⟩ := h
      subst h2; exact Nat.le_refl _
    · simp at h
  | cons b rest ih =>
    intro acc sy r h
    unfold find_sync at h
    split at h
    · simp only [Except.ok.injEq, Prod.mk.injEq] at h
      obtain ⟨h1, h2⟩ := h
      subst h2; exact Nat.le_refl _
    · exact Nat.le_trans (ih (acc ++ [b]) sy r h) (by simp)

/-- The packet loop never hands back more bytes than it was given. -/
theorem handle_bin_loop_rest_le (fuel : Nat) :
    ∀ pos endAt s evs p r, handle_bin_loop fuel pos endAt s = .ok (evs, p, r) →
      r.length ≤ s.length := by
  induction fuel with
  | zero =>
    intro pos endAt s evs p r h
    simp [handle_bin_loop] at h
  | succ fuel ih =>
    intro pos endAt s evs p r h
    simp only [handle_bin_loop] at h
    split at h
    · split at h
      · simp only [Except.ok.injEq, Prod.mk.injEq] at h
        obtain ⟨h1, h2, h3⟩ := h
        subst h3; exact Nat.le_refl _
      · simp at h
    · split at h
      · simp at h
      · split at h
        · split at h
          · simp at h
          · split at h
            · simp at h
            · split at h
              · simp at h
              · split at h
                · simp at h
                · rename_i heq
                  simp only [Except.ok.injEq, Prod.mk.injEq] at h
                  obtain ⟨h1, h2, h3⟩ := h
                  subst h3
                  refine Nat.le_trans (ih _ _ _ _ _ _ heq) ?_
                  simp
        · split at h
          · split at h
            · simp at h
            · split at h
              · simp at h
              · split at h
                · simp at h
                · rename_i heq
                  simp only [Except.ok.injEq, Prod.mk.injEq] at h
                  obtain ⟨h1, h2, h3⟩ := h
                  subst h3
                  refine Nat.le_trans (ih _ _ _ _ _ _ heq) ?_
                  simp
          · simp at h

/-- The packet loop cannot run out of fuel when given more fuel than
bytes: each iteration consumes at least four bytes. -/
theorem handle_bin_loop_no_fuelOut (fuel : Nat) :
    ∀ pos endAt s, s.length < fuel →
      handle_bin_loop fuel pos endAt s ≠ .error .fuelOut := by
  induction fuel with
  | zero => intro pos endAt s hlt; omega
  | succ fuel ih =>
    intro pos endAt s hlt h
    simp only [handle_bin_loop] at h
    split at h
    · split at h
      · simp at h
      · simp at h
    · split at h
      · simp at h
      · rename_i hlen4
        have hs4 : 4 ≤ s.length := by
          simp only [List.length_take] at hlen4
          omega
        split at h
        · split at h
          · simp at h
          · split at h
            · simp at h
            · split at h
              · simp at h
              · split at h
                · rename_i heq
                  simp only [Except.error.injEq] at h
                  subst h
                  exact ih _ endAt _ (by simp; omega) heq
                · simp at h
        · split at h
          · split at h
            · simp at h
            · split at h
              · simp at h
              · split at h
                · rename_i heq
                  simp only [Except.error.injEq] at h
                  subst h
                  exact ih _ endAt _ (by simp; omega) heq
                · simp at h
          · simp at h

/-- The sync search fails only with the divergence marker, never with the
fuel marker. -/
theorem find_sync_ne_fuelOut (s : Bytes) : ∀ acc, find_sync s acc ≠ .error .fuelOut := by
  induction s with
  | nil =>
    intro acc h
    unfold find_sync at h
    split at h
    · simp at h
    · simp at h
  | cons b rest ih =>
    intro acc h
    unfold find_sync at h
    split at h
    · simp at h
    · exact ih (acc ++ [b]) h

/-- `handle_bin` never reports the fuel marker: it gives the packet loop
one more unit of fuel than there are bytes after the sync word. -/
theorem handle_bin_no_fuelOut (pos : Nat) (endAt : Option Nat) (s : Bytes) :
    handle_bin pos endAt s ≠ .error .fuelOut := by
  intro h
  unfold handle_bin at h
  split at h
  · rename_i heq
    simp only [Except.error.injEq] at h
    subst h
    exact find_sync_ne_fuelOut s [] heq
  · rename_i sy rest heq
    split at h
    · rename_i heq2
      simp only [Except.error.injEq] at h
      subst h
      exact handle_bin_loop_no_fuelOut _ _ _ _ (by omega) heq2
    · simp at h

/-- The record loop of `handle_bit` cannot run out of fuel when given more
fuel than bytes: each iteration consumes at least the key byte. -/
theorem handle_bit_loop_no_fuelOut (fuel : Nat) :
    ∀ pos s, s.length < fuel → handle_bit_loop fuel pos s ≠ .error .fuelOut := by
  induction fuel with
  | zero => intro pos s hlt; omega
  | succ fuel ih =>
    intro pos s hlt h
    cases s with
    | nil => simp [handle_bit_loop] at h
    | cons key rest =>
      simp only [handle_bit_loop] at h
      split at h
      · split at h
        · simp at h
        · split at h
          · rename_i heqbin
            simp only [Except.error.injEq] at h
            subst h
            exact handle_bin_no_fuelOut _ _ _ heqbin
          · rename_i evs1 p1 r1 heqbin
            split at h
            · rename_i heqloop
              simp only [Except.error.injEq] at h
              subst h
              have hr1 : r1.length ≤ (rest.drop 4).length := by
                unfold handle_bin at heqbin
                split at heqbin
                · simp at heqbin
                · rename_i sy rest2 heqsync
                  split at heqbin
                  · simp at heqbin
                  · rename_i heq2
                    simp only [Except.ok.injEq, Prod.mk.injEq] at heqbin
                    obtain ⟨h1, h2, h3⟩ := heqbin
                    subst h3
                    exact Nat.le_trans (handle_bin_loop_rest_le _ _ _ _ _ _ _ heq2)
                      (find_sync_rest_le _ _ _ _ heqsync)
              refine ih p1 r1 ?_ heqloop
              simp only [List.length_drop] at hr1
              simp only [List.length_cons] at hlt
              omega
            · simp at h
      · split at h
        · split at h
          · simp at h
          · split at h
            · split at h
              · rename_i heqloop
                simp only [Except.error.injEq] at h
                subst h
                refine ih _ _ ?_ heqloop
                simp only [List.length_drop, List.length_cons] at hlt ⊢
                omega
              · simp at h
            · simp at h
        · simp at h

/-- `handle_bit` never reports the fuel marker of the embedding. -/
theorem handle_bit_no_fuelOut (D : Bytes) : handle_bit D ≠ .error .fuelOut := by
  intro h
  simp only [handle_bit] at h
  split at h
  · simp at h
  · split at h
    · simp at h
    · split at h
      · simp at h
      · split at h
        · simp at h
        · split at h
          · rename_i heq
            simp only [Except.error.injEq] at h
            subst h
            exact handle_bit_loop_no_fuelOut _ _ _ (by omega) heq
          · simp at h

/-- The construction-time assertions of the source register table:
`registers[0b11000] == "CTL1"`, `registers[0b10110] == "BOOTSTS"`,
`registers[0b11111] == "BSPI"`, `registers[0b01100] == "IDCODE"`. -/
theorem registers_spot_checks :
    registers.get? 24 = some "CTL1" ∧ registers.get? 22 = some "BOOTSTS" ∧
      registers.get? 31 = some "BSPI" ∧ registers.get? 12 = some "IDCODE" :=
  ⟨rfl, rfl, rfl, rfl⟩
